import Mathlib

/-!
# Verification of the shopify-app-starter utility modules

A shallow embedding in Lean 4 of the pure computational content of the
utility modules of the `shopify-app-starter` repository:

* `app/utils/rateLimiter.server.ts` — the two-tier (burst / sustained)
  fixed-window rate limiter, in its minimal and enhanced variants;
* `app/utils/webhookVerification.server.ts` — HMAC webhook signature
  verification and the retry loop around webhook handlers;
* `app/utils/insights.ts` — the dashboard insight generation heuristic;
* `app/utils/formatters.ts` — the money formatter.

JavaScript `Date.now()` timestamps are embedded as natural numbers
(milliseconds since the epoch; `ℤ` where a difference may be negative),
counters as naturals, and fractional thresholds as rationals.  External
library primitives that are not part of the repository (HMAC-SHA256,
`Date.prototype.toISOString`, `Intl.NumberFormat`) enter as function
parameters.  The `lru-cache` instances are embedded as total maps
`String → Option _`; capacity eviction and TTL expiry of the cache
library sit below this abstraction.  Logging calls
(`logger.*`, `console.*`, `logRateLimitExceeded`) produce no value and
touch no modelled state, and are dropped.
-/

namespace ShopifyApp

/-! ## Rate limiter: `app/utils/rateLimiter.server.ts`

```ts
interface BurstBucket {
  burstCount: number;
  burstReset: number;
  sustainedCount: number;
  sustainedReset: number;
}
```
-/

/-- Per-key counter pair stored in `rateLimitCache`. -/
structure BurstBucket where
  burstCount : ℕ
  burstReset : ℕ
  sustainedCount : ℕ
  sustainedReset : ℕ
deriving Repr, DecidableEq

/-- A thrown `Response` value: status code, body text and headers. -/
structure Response where
  status : ℕ
  body : String
  headers : List (String × String)
deriving Repr, DecidableEq

/-- The value returned by `rateLimit` on the admit path:
`{ remaining, reset, burst }`. -/
structure RateLimitResult where
  remaining : ℤ
  reset : String
  burst : Bool
deriving Repr, DecidableEq

/-- `const burstWindow = 10 * 1000` (milliseconds). -/
def burstWindow : ℕ := 10 * 1000

/-- `const sustainedWindow = 60 * 1000` (milliseconds). -/
def sustainedWindow : ℕ := 60 * 1000

/-- The default bucket built when the cache holds no entry for the key:
both counters `0`, both reset timestamps one window into the future. -/
def freshBucket (now : ℕ) : BurstBucket :=
  { burstCount := 0
    burstReset := now + burstWindow
    sustainedCount := 0
    sustainedReset := now + sustainedWindow }

/-- The two window-reset checks at the top of `rateLimit`:
a counter whose reset timestamp has passed (`now >= reset`) is zeroed
and given a fresh reset timestamp one window from `now`. -/
def applyWindowResets (b : BurstBucket) (now : ℕ) : BurstBucket :=
  let b1 :=
    if b.burstReset ≤ now then
      { b with burstCount := 0, burstReset := now + burstWindow }
    else b
  if b1.sustainedReset ≤ now then
    { b1 with sustainedCount := 0, sustainedReset := now + sustainedWindow }
  else b1

/-- Point update of a string-keyed map (the effect of `cache.set(k, v)`). -/
def mapSet {α : Type} (m : String → Option α) (k : String) (v : α) :
    String → Option α :=
  fun k' => if k' = k then some v else m k'

/-- The cache key used by `rateLimit`: `` `rate-limit:${shop}` ``. -/
def rateLimitKey (shop : String) : String := "rate-limit:" ++ shop

/-- The mutable module state of the enhanced rate limiter:
`rateLimitCache` (shop / ip / cron buckets) and `highUsageLog`. -/
structure RLState where
  rateLimitCache : String → Option BurstBucket
  highUsageLog : String → Option ℕ

/-- `Math.ceil((reset - now) / 1000)` for `now ≤ reset`, as a natural. -/
def retryAfterSeconds (reset now : ℕ) : ℕ := (reset - now + 999) / 1000

/-- The enhanced `rateLimit` (lines 95–168 of `rateLimiter.server.ts`).

`iso` embeds `new Date(n).toISOString()`.  The function returns the
`Except`-value (thrown `Response` or returned result) together with the
module state after the call.  JavaScript reference semantics are kept:
the bucket obtained from `cache.get` is mutated in place by the two
window resets, so on the throw paths a cached bucket already carries the
resets even though `cache.set` is not reached. -/
def rateLimit (iso : ℕ → String) (st : RLState) (shop : String) (now : ℕ)
    (sustainedLimit : ℕ) (burstLimit : ℕ) :
    Except Response RateLimitResult × RLState :=
  let key := rateLimitKey shop
  let stored := st.rateLimitCache key
  let bucket := applyWindowResets (stored.getD (freshBucket now)) now
  let cacheAfterResets :=
    if stored.isSome then mapSet st.rateLimitCache key bucket
    else st.rateLimitCache
  if burstLimit ≤ bucket.burstCount then
    (.error
      { status := 429
        body := "Too Many Requests (burst limit)"
        headers :=
          [("Retry-After", toString (retryAfterSeconds bucket.burstReset now)),
           ("X-RateLimit-Limit", toString burstLimit ++ "/10s"),
           ("X-RateLimit-Remaining", "0"),
           ("X-RateLimit-Reset", iso bucket.burstReset)] },
     { st with rateLimitCache := cacheAfterResets })
  else if sustainedLimit ≤ bucket.sustainedCount then
    (.error
      { status := 429
        body := "Too Many Requests"
        headers :=
          [("Retry-After", toString (retryAfterSeconds bucket.sustainedReset now)),
           ("X-RateLimit-Limit", toString sustainedLimit ++ "/60s"),
           ("X-RateLimit-Remaining", "0"),
           ("X-RateLimit-Reset", iso bucket.sustainedReset)] },
     { st with rateLimitCache := cacheAfterResets })
  else
    let b2 := { bucket with
                  burstCount := bucket.burstCount + 1
                  sustainedCount := bucket.sustainedCount + 1 }
    let cache2 := mapSet st.rateLimitCache key b2
    let log2 :=
      if (sustainedLimit : ℚ) * (4 / 10) < (b2.sustainedCount : ℚ)
          ∧ (st.highUsageLog shop).isNone then
        mapSet st.highUsageLog shop b2.sustainedCount
      else st.highUsageLog
    (.ok
      { remaining := (sustainedLimit : ℤ) - (b2.sustainedCount : ℤ)
        reset := iso b2.sustainedReset
        burst := decide ((burstLimit : ℚ) * (7 / 10) < (b2.burstCount : ℚ)) },
     { rateLimitCache := cache2, highUsageLog := log2 })

/-- The minimal `rateLimit` (lines 15–59 of the same file): identical
bucket arithmetic, no logging, no `highUsageLog`, and bare 429 responses
(`'Too Many Requests'`, no headers) on both throw paths. -/
def rateLimitMin (iso : ℕ → String) (cache : String → Option BurstBucket)
    (shop : String) (now : ℕ) (sustainedLimit : ℕ) (burstLimit : ℕ) :
    Except Response RateLimitResult × (String → Option BurstBucket) :=
  let key := rateLimitKey shop
  let stored := cache key
  let bucket := applyWindowResets (stored.getD (freshBucket now)) now
  let cacheAfterResets :=
    if stored.isSome then mapSet cache key bucket else cache
  if burstLimit ≤ bucket.burstCount then
    (.error { status := 429, body := "Too Many Requests", headers := [] },
     cacheAfterResets)
  else if sustainedLimit ≤ bucket.sustainedCount then
    (.error { status := 429, body := "Too Many Requests", headers := [] },
     cacheAfterResets)
  else
    let b2 := { bucket with
                  burstCount := bucket.burstCount + 1
                  sustainedCount := bucket.sustainedCount + 1 }
    (.ok
      { remaining := (sustainedLimit : ℤ) - (b2.sustainedCount : ℤ)
        reset := iso b2.sustainedReset
        burst := decide ((burstLimit : ℚ) * (7 / 10) < (b2.burstCount : ℚ)) },
     mapSet cache key b2)

/-- Module state before any call: both caches empty. -/
def emptyRLState : RLState :=
  { rateLimitCache := fun _ => none, highUsageLog := fun _ => none }

/-- Runs a sequence of `rateLimit` calls for one shop at the given
timestamps, starting from `st` with `adm` the times of the requests
admitted so far; returns the final state and the admitted times. -/
def runCallsAux (iso : ℕ → String) (shop : String)
    (sustainedLimit burstLimit : ℕ) (st : RLState) (adm : List ℕ) :
    List ℕ → RLState × List ℕ
  | [] => (st, adm)
  | t :: ts =>
    let r := rateLimit iso st shop t sustainedLimit burstLimit
    runCallsAux iso shop sustainedLimit burstLimit r.2
      (if r.1.isOk then adm ++ [t] else adm) ts

/-- Runs a sequence of `rateLimit` calls for one shop from the empty
state. -/
def runCalls (iso : ℕ → String) (shop : String)
    (sustainedLimit burstLimit : ℕ) (ts : List ℕ) : RLState × List ℕ :=
  runCallsAux iso shop sustainedLimit burstLimit emptyRLState [] ts

/-- Number of admitted requests in the trailing window of length
`window` ending at `now`: those whose age `now - a` is below the window
length. -/
def slidingWindowCount (adm : List ℕ) (now window : ℕ) : ℕ :=
  (adm.filter fun a => now < a + window).length

/-- Stub for `new Date(n).toISOString()` used in concrete instances;
the claims under scrutiny never inspect the produced string. -/
def isoStub : ℕ → String := fun _ => ""

/-- The bucket `rateLimit` actually measures against the limits: the
cached entry (or the fresh default) after the two window-reset checks. -/
def bucketSeen (st : RLState) (shop : String) (now : ℕ) : BurstBucket :=
  applyWindowResets
    ((st.rateLimitCache (rateLimitKey shop)).getD (freshBucket now)) now

/-- A cache holding one shop bucket whose burst counter is saturated
(40 requests in the live burst window). -/
def burstRejectCache : String → Option BurstBucket :=
  fun k =>
    if k = "rate-limit:shop" then
      some { burstCount := 40, burstReset := 10000
             sustainedCount := 40, sustainedReset := 60000 }
    else none

/-- Module state wrapping `burstRejectCache`, empty high-usage log. -/
def burstRejectState : RLState :=
  { rateLimitCache := burstRejectCache, highUsageLog := fun _ => none }

/-! ## Webhooks: `app/utils/webhookVerification.server.ts` -/

/-- `verifyWebhookSignature(rawBody, signature, secret)`.

`hmacSha256Base64 secret rawBody` embeds
`crypto.createHmac('sha256', secret).update(rawBody, 'utf8').digest('base64')`.
`signature` is `string | null`; the guard `if (!signature) return false`
rejects both `null` and (by JavaScript falsiness) the empty string. -/
def verifyWebhookSignature (hmacSha256Base64 : String → String → String)
    (rawBody : String) (signature : Option String) (secret : String) : Bool :=
  match signature with
  | none => false
  | some s =>
    if s = "" then false
    else decide (hmacSha256Base64 secret rawBody = s)

/-- `Math.pow(2, attempt) * 1000`: the sleep (ms) inserted after a
failed attempt when further attempts remain. -/
def retryDelayMs (attempt : ℕ) : ℕ := 2 ^ attempt * 1000

/-- Observable trace of one `handleWebhookWithRetry` run: the final
outcome (`.error none` embeds `throw undefined`, reachable only when
the loop body never runs), the attempt numbers at which the handler was
invoked, and the sleeps inserted between consecutive attempts. -/
structure RetryTrace (E : Type) where
  result : Except (Option E) Unit
  attemptsMade : List ℕ
  delays : List ℕ

/-- The body of the `for (let attempt = 1; attempt <= maxRetries; ...)`
loop of `handleWebhookWithRetry`, from iteration `attempt` on, with
`fuel` the number of loop iterations still allowed
(`fuel = maxRetries + 1 - attempt` at every call; the loop guard
`attempt <= maxRetries` is exactly `fuel > 0`, and the sleep guard
`attempt < maxRetries` is exactly the recursive `fuel > 0`).
`results i` embeds the outcome of the `i`-th invocation of `handler`;
on exhaustion the accumulated `lastError` is thrown. -/
def retryGo {E : Type} (results : ℕ → Except E Unit) :
    ℕ → ℕ → Option E → RetryTrace E
  | 0, _, lastError => ⟨.error lastError, [], []⟩
  | fuel + 1, attempt, _ =>
    match results attempt with
    | .ok _ => ⟨.ok (), [attempt], []⟩
    | .error e =>
      if 0 < fuel then
        let rest := retryGo results fuel (attempt + 1) (some e)
        ⟨rest.result, attempt :: rest.attemptsMade,
          retryDelayMs attempt :: rest.delays⟩
      else ⟨.error (some e), [attempt], []⟩

/-- `handleWebhookWithRetry(handler, maxRetries)` (default `3`):
the loop starts at `attempt = 1` with `lastError` unset. -/
def handleWebhookWithRetry {E : Type} (results : ℕ → Except E Unit)
    (maxRetries : ℕ) : RetryTrace E :=
  retryGo results maxRetries 1 none

/-! ## Insights: `app/utils/insights.ts`

`DashboardMetrics` as declared at the top of the file.  Real-valued
metrics (rates, ratios, money) are embedded as rationals, counts as
naturals, `lastMLUpdate : Date | null` as an optional millisecond
timestamp. -/

structure DashboardMetrics where
  cartEnabled : Bool
  recommendationsVisible : Bool
  appInstalledDays : ℕ
  totalOrders : ℕ
  totalRevenue : ℚ
  attributedRevenue : ℚ
  attributedOrders : ℕ
  activeBundleCount : ℕ
  recImpressions : ℕ
  recClicks : ℕ
  recCTR : ℚ
  conversionRate : ℚ
  aiRecommendationsEnabled : Bool
  freeShippingEnabled : Bool
  freeShippingThreshold : ℚ
  ordersReachingFreeShipping : ℕ
  roi : ℚ
  lastMLUpdate : Option ℤ
  mlPerformanceChange : ℚ

/-- The `action: { label, url }` payload of an insight card. -/
structure InsightAction where
  label : String
  url : String
deriving Repr, DecidableEq

/-- Modelled from the spec: `InsightCardProps` is imported from
`app/components/InsightCard`, which is not among the provided sources;
its fields are taken from the card literals in `insights.ts`.  The
`title` and `message` display strings are built with floating-point
`toFixed` formatting and are left out of the embedding; no claim refers
to them. -/
structure InsightCardProps where
  id : String
  type : String
  priority : ℕ
  action : Option InsightAction
deriving Repr, DecidableEq

/-- `interface ScoredInsight extends InsightCardProps { score: number }`. -/
structure ScoredInsight extends InsightCardProps where
  score : ℕ
deriving Repr, DecidableEq

/-- Card 1, `no-visibility` (score 100). -/
def noVisibilityCard : ScoredInsight :=
  ⟨⟨"no-visibility", "critical", 1, some ⟨"Setup guide", "/admin/settings"⟩⟩, 100⟩

/-- Card 2, `cart-disabled` (score 95). -/
def cartDisabledCard : ScoredInsight :=
  ⟨⟨"cart-disabled", "critical", 1, some ⟨"Enable now", "/admin/settings"⟩⟩, 95⟩

/-- Card 3, `no-bundles` (score 97). -/
def noBundlesCard : ScoredInsight :=
  ⟨⟨"no-bundles", "critical", 1, some ⟨"Create FBT", "/admin/bundles/new"⟩⟩, 97⟩

/-- Card 4, `no-clicks` (score 85). -/
def noClicksCard : ScoredInsight :=
  ⟨⟨"no-clicks", "warning", 2, some ⟨"View FBT offers", "/admin/bundles"⟩⟩, 85⟩

/-- Card 5, `low-ctr` (score 82). -/
def lowCtrCard : ScoredInsight :=
  ⟨⟨"low-ctr", "warning", 2, some ⟨"Improve FBT", "/admin/bundles"⟩⟩, 82⟩

/-- Card 6, `low-conversion` (score 80). -/
def lowConversionCard : ScoredInsight :=
  ⟨⟨"low-conversion", "warning", 2, some ⟨"Review pricing", "/admin/bundles"⟩⟩, 80⟩

/-- Card 7, `shipping-low` (score 78). -/
def shippingLowCard : ScoredInsight :=
  ⟨⟨"shipping-low", "warning", 2, some ⟨"Adjust threshold", "/admin/settings"⟩⟩, 78⟩

/-- Card 8, `ai-disabled` (score 77). -/
def aiDisabledCard : ScoredInsight :=
  ⟨⟨"ai-disabled", "warning", 2, some ⟨"Enable AI", "/admin/settings"⟩⟩, 77⟩

/-- Card 9, `first-sale` (score 70, no action). -/
def firstSaleCard : ScoredInsight :=
  ⟨⟨"first-sale", "success", 4, none⟩, 70⟩

/-- Card 10, `strong-roi` (score 65, no action). -/
def strongRoiCard : ScoredInsight :=
  ⟨⟨"strong-roi", "success", 4, none⟩, 65⟩

/-- Card 11, `high-ctr` (score 68). -/
def highCtrCard : ScoredInsight :=
  ⟨⟨"high-ctr", "success", 4, some ⟨"See top offers", "/admin/bundles"⟩⟩, 68⟩

/-- Card 12, `high-conversion` (score 66, no action). -/
def highConversionCard : ScoredInsight :=
  ⟨⟨"high-conversion", "success", 4, none⟩, 66⟩

/-- Card 13, `getting-started` (score 60). -/
def gettingStartedCard : ScoredInsight :=
  ⟨⟨"getting-started", "info", 5, some ⟨"Setup guide", "/admin/settings"⟩⟩, 60⟩

/-- Card 14, `ml-improving` (score 55, no action). -/
def mlImprovingCard : ScoredInsight :=
  ⟨⟨"ml-improving", "info", 5, none⟩, 55⟩

/-- The fourteen card literals of `generateInsights`, in source order. -/
def allInsightCards : List ScoredInsight :=
  [noVisibilityCard, cartDisabledCard, noBundlesCard, noClicksCard,
   lowCtrCard, lowConversionCard, shippingLowCard, aiDisabledCard,
   firstSaleCard, strongRoiCard, highCtrCard, highConversionCard,
   gettingStartedCard, mlImprovingCard]

/-- The `insights` array after the fourteen conditional pushes of
`generateInsights`, in push order.  `now` embeds the `Date.now()` read
in the `ml-improving` conditional; `Int.fdiv` is `Math.floor` of the
millisecond quotient. -/
def scoredInsights (m : DashboardMetrics) (now : ℤ) : List ScoredInsight :=
  (if m.recommendationsVisible = false ∧ 3 < m.appInstalledDays then
    [noVisibilityCard] else [])
  ++ (if m.cartEnabled = false ∧ 10 < m.totalOrders then
    [cartDisabledCard] else [])
  ++ (if m.activeBundleCount = 0 ∧ 7 < m.appInstalledDays then
    [noBundlesCard] else [])
  ++ (if 50 < m.recImpressions ∧ m.recClicks = 0 then
    [noClicksCard] else [])
  ++ (if m.recCTR < 2 ∧ 100 < m.recImpressions then
    [lowCtrCard] else [])
  ++ (if 3 < m.recCTR ∧ m.conversionRate < 1 ∧ 20 < m.recClicks then
    [lowConversionCard] else [])
  ++ (if m.freeShippingEnabled = true ∧ 0 < m.freeShippingThreshold then
    (let reachingRate : ℚ :=
      if 0 < m.totalOrders then
        (m.ordersReachingFreeShipping : ℚ) / (m.totalOrders : ℚ) * 100
      else 0
    if reachingRate < 15 ∧ 0 < reachingRate then [shippingLowCard] else [])
    else [])
  ++ (if m.aiRecommendationsEnabled = false ∧ 20 < m.totalOrders
        ∧ 0 < m.activeBundleCount then
    [aiDisabledCard] else [])
  ++ (if m.attributedOrders = 1 ∧ m.appInstalledDays < 30 then
    [firstSaleCard] else [])
  ++ (if 10 < m.roi ∧ 100 < m.attributedRevenue then
    [strongRoiCard] else [])
  ++ (if 5 < m.recCTR ∧ 50 < m.recImpressions then
    [highCtrCard] else [])
  ++ (if 5 < m.conversionRate ∧ 20 < m.recClicks then
    [highConversionCard] else [])
  ++ (if m.appInstalledDays < 7 ∧ m.recImpressions < 10 then
    [gettingStartedCard] else [])
  ++ (match m.lastMLUpdate with
      | none => []
      | some t =>
        if 10 < m.mlPerformanceChange ∧ (now - t).fdiv 86400000 < 7 then
          [mlImprovingCard] else [])

/-- `generateInsights`: sort the pushed cards by score, highest first
(JavaScript `Array.prototype.sort` is stable, as is `mergeSort`), keep
the first four, and strip the `score` field. -/
def generateInsights (m : DashboardMetrics) (now : ℤ) : List InsightCardProps :=
  (((scoredInsights m now).mergeSort fun a b => b.score ≤ a.score).take 4).map
    (fun s => s.toInsightCardProps)

/-- The fixed score each insight kind carries in `insights.ts`. -/
def scoreOf : String → ℕ
  | "no-visibility" => 100
  | "cart-disabled" => 95
  | "no-bundles" => 97
  | "no-clicks" => 85
  | "low-ctr" => 82
  | "low-conversion" => 80
  | "shipping-low" => 78
  | "ai-disabled" => 77
  | "first-sale" => 70
  | "strong-roi" => 65
  | "high-ctr" => 68
  | "high-conversion" => 66
  | "getting-started" => 60
  | "ml-improving" => 55
  | _ => 0

/-! ## Formatters: `app/utils/formatters.ts` -/

/-- A JavaScript `number` argument as `formatMoney` distinguishes it:
`NaN` or an ordinary numeric value. -/
inductive JSNumber : Type
  | nan : JSNumber
  | num : ℚ → JSNumber
deriving Repr, DecidableEq

/-- `formatMoney(amount, currencyCode)`.  `intlFormat code q` embeds
`new Intl.NumberFormat('en-US', { style: 'currency', currency: code })
.format(q)`; the `typeof amount === 'string'` coercion branch is dead
for `number` arguments, and the `DEBUG_MODE` warning is logging only.
The function always returns a string: `NaN` falls into the `isNaN`
branch and is formatted as `0`. -/
def formatMoney (intlFormat : String → ℚ → String) (amount : JSNumber)
    (currencyCode : String) : String :=
  match amount with
  | .nan => intlFormat currencyCode 0
  | .num q => intlFormat currencyCode q

/-! ## Claims under examination, stated verbatim as propositions

These record, as single propositions over the embedding, the claims
whose truth value on the code is at issue; each is settled below. -/

/-- The sliding-window reading of the rate limiter: at any call, each
counter (after window resets) would equal the number of previously
admitted requests younger than the window length. -/
def claimC2Statement : Prop :=
  ∀ (iso : ℕ → String) (shop : String) (sustainedLimit burstLimit : ℕ)
    (ts : List ℕ) (t : ℕ),
    ts.Chain' (· ≤ ·) → (∀ u ∈ ts, u ≤ t) →
    (bucketSeen (runCalls iso shop sustainedLimit burstLimit ts).1 shop
        t).burstCount
      = slidingWindowCount (runCalls iso shop sustainedLimit burstLimit ts).2
          t burstWindow
    ∧ (bucketSeen (runCalls iso shop sustainedLimit burstLimit ts).1 shop
        t).sustainedCount
      = slidingWindowCount (runCalls iso shop sustainedLimit burstLimit ts).2
          t sustainedWindow

/-- Execution invariant of the fixed-window counters for one shop.
`adm` is the list of admitted request times so far and `T` the time of
the last call (or any lower bound for the next call): when a bucket is
cached, each counter equals the number of admitted requests inside that
counter's current window `(reset - window, reset]`, all admitted times
precede the reset timestamps, and each reset timestamp lies at most one
window after `T`. -/
def RLInv (st : RLState) (shop : String) (adm : List ℕ) (T : ℕ) : Prop :=
  (st.rateLimitCache (rateLimitKey shop) = none → adm = []) ∧
  ∀ bb, st.rateLimitCache (rateLimitKey shop) = some bb →
    bb.burstCount =
        (adm.filter fun a => bb.burstReset ≤ a + burstWindow).length ∧
    bb.sustainedCount =
        (adm.filter fun a => bb.sustainedReset ≤ a + sustainedWindow).length ∧
    (∀ a ∈ adm, a < bb.burstReset ∧ a < bb.sustainedReset) ∧
    bb.burstReset ≤ T + burstWindow ∧
    bb.sustainedReset ≤ T + sustainedWindow

/-- The fixed-delay reading of the retry loop: a single constant delay
separates any two consecutive attempts, for every handler and retry
budget. -/
def claimC3Statement : Prop :=
  ∃ c : ℕ, ∀ (E : Type) (results : ℕ → Except E Unit) (maxRetries : ℕ),
    ∀ d ∈ (handleWebhookWithRetry results maxRetries).delays, d = c

/-- The reading of the two `rateLimit` variants as observationally
equal up to logging and 429 headers only: same admit/reject decision,
equal admitted results, and thrown responses equal in status and body. -/
def claimC9Statement : Prop :=
  ∀ (iso : ℕ → String) (st : RLState) (shop : String) (now sl bl : ℕ),
    (∀ v, (rateLimit iso st shop now sl bl).1 = .ok v ↔
      (rateLimitMin iso st.rateLimitCache shop now sl bl).1 = .ok v) ∧
    (∀ r r', (rateLimit iso st shop now sl bl).1 = .error r →
      (rateLimitMin iso st.rateLimitCache shop now sl bl).1 = .error r' →
      r.status = r'.status ∧ r.body = r'.body)

/-- The 429 thrown by the enhanced `rateLimit` on the burst path at the
`burstRejectState` fixture (`Retry-After` is `⌈(10000-5000)/1000⌉ = 5`). -/
def burstRejectRespEnhanced : Response :=
  { status := 429
    body := "Too Many Requests (burst limit)"
    headers :=
      [("Retry-After", "5"), ("X-RateLimit-Limit", "40/10s"),
       ("X-RateLimit-Remaining", "0"), ("X-RateLimit-Reset", "")] }

/-- The 429 thrown by the minimal `rateLimit` on the same fixture. -/
def burstRejectRespMin : Response :=
  { status := 429, body := "Too Many Requests", headers := [] }

/-- A handler that fails on every invocation. -/
def alwaysFailHandler : ℕ → Except Unit Unit := fun _ => .error ()

/-- A handler that fails on the first attempt and succeeds on the
second. -/
def failThenOkHandler : ℕ → Except Unit Unit :=
  fun i => if i = 2 then .ok () else .error ()

/-- A stub HMAC-SHA256-base64 primitive for concrete instances. -/
def hmacStub : String → String → String := fun _ _ => "h"

/-- A concrete metrics record that triggers six of the fourteen insight
conditionals (`no-visibility`, `cart-disabled`, `no-bundles`,
`no-clicks`, `low-ctr`, `first-sale`). -/
def demoMetrics : DashboardMetrics :=
  { cartEnabled := false
    recommendationsVisible := false
    appInstalledDays := 10
    totalOrders := 30
    totalRevenue := 1000
    attributedRevenue := 200
    attributedOrders := 1
    activeBundleCount := 0
    recImpressions := 200
    recClicks := 0
    recCTR := 0
    conversionRate := 0
    aiRecommendationsEnabled := false
    freeShippingEnabled := false
    freeShippingThreshold := 0
    ordersReachingFreeShipping := 0
    roi := 0
    lastMLUpdate := none
    mlPerformanceChange := 0 }

/-! ## Theorems -/

/-- C10: `formatMoney` is total on its numeric argument: it returns the
`en-US` currency formatting of the amount for every amount and never
throws, and in the `NaN` case it formats `0` in the given currency. -/
theorem formatMoney_total_C10 :
    ∀ (intlFormat : String → ℚ → String) (code : String),
      formatMoney intlFormat JSNumber.nan code = intlFormat code 0 ∧
      ∀ q : ℚ, formatMoney intlFormat (JSNumber.num q) code = intlFormat code q :=
  fun _ _ => ⟨rfl, fun _ => rfl⟩

/-- C5: `verifyWebhookSignature` is a single HMAC comparison: under the
(true of HMAC-SHA256-base64) assumption that digests are non-empty, it
returns `true` iff the signature is non-null and equals the digest of
the raw body under the secret, and it returns `false` (rather than
throwing) when the signature is null. -/
theorem verifyWebhookSignature_C5 :
    ∀ (hmacSha256Base64 : String → String → String) (rawBody : String)
      (signature : Option String) (secret : String),
      hmacSha256Base64 secret rawBody ≠ "" →
      ((verifyWebhookSignature hmacSha256Base64 rawBody signature secret = true ↔
          ∃ s, signature = some s ∧ s = hmacSha256Base64 secret rawBody) ∧
        (signature = none →
          verifyWebhookSignature hmacSha256Base64 rawBody signature secret = false)) := by
  intro hmac rawBody signature secret hne
  refine ⟨?_, fun hnone => by subst hnone; rfl⟩
  cases signature with
  | none => simp [verifyWebhookSignature]
  | some s =>
    by_cases hs : s = ""
    · subst hs
      constructor
      · intro h
        exact absurd h (by simp [verifyWebhookSignature])
      · rintro ⟨s2, hs2, heq⟩
        obtain rfl : s2 = "" := (Option.some.inj hs2).symm
        exact absurd heq.symm hne
    · simp only [verifyWebhookSignature, if_neg hs, decide_eq_true_eq]
      constructor
      · intro h; exact ⟨s, rfl, h.symm⟩
      · rintro ⟨s2, hs2, heq⟩
        obtain rfl : s2 = s := (Option.some.inj hs2).symm
        exact heq.symm

/-- Witness for C5 at a concrete digest function and signature. -/
theorem verifyWebhookSignature_C5_witness :
    hmacStub "secret" "body" ≠ "" ∧
      verifyWebhookSignature hmacStub "body" (some "h") "secret" = true := by
  refine ⟨by decide, ?_⟩
  exact (verifyWebhookSignature_C5 hmacStub "body" (some "h") "secret"
    (by decide)).1.mpr ⟨"h", rfl, rfl⟩

/-- C7: a `rateLimit` call for a shop reads and writes only the
`rateLimitCache` entry at key `rate-limit:<shop>`: every other key of
the bucket cache — other shops, `rate-limit-ip:` keys, `rate-limit-cron:`
keys — is untouched, whatever the prior state and outcome. -/
theorem rateLimit_frame_C7 :
    ∀ (iso : ℕ → String) (st : RLState) (shop : String) (now sl bl : ℕ)
      (k : String), k ≠ rateLimitKey shop →
      (rateLimit iso st shop now sl bl).2.rateLimitCache k =
        st.rateLimitCache k := by
  intro iso st shop now sl bl k hk
  simp only [rateLimit]
  split_ifs <;> simp [mapSet, hk]

/-- Witness for C7: an IP-limiter key is untouched by a shop call. -/
theorem rateLimit_frame_C7_witness :
    "rate-limit-ip:10.0.0.1" ≠ rateLimitKey "shop" ∧
      (rateLimit isoStub burstRejectState "shop" 5000 100 40).2.rateLimitCache
          "rate-limit-ip:10.0.0.1" = none := by
  refine ⟨by decide, ?_⟩
  rw [rateLimit_frame_C7 isoStub burstRejectState "shop" 5000 100 40
    "rate-limit-ip:10.0.0.1" (by decide)]
  rfl

/-- C1: after window resets, `rateLimit` throws a 429 iff the burst
counter has reached `burstLimit` or the sustained counter has reached
`sustainedLimit`; on a throw the shop's cache entry carries only the
window resets (no counter is incremented, an absent entry stays
absent), and on normal return both counters are incremented by exactly
one. -/
theorem rateLimit_decision_C1 :
    ∀ (iso : ℕ → String) (st : RLState) (shop : String) (now sl bl : ℕ),
      ((∃ resp, (rateLimit iso st shop now sl bl).1 = .error resp ∧
          resp.status = 429) ↔
        bl ≤ (bucketSeen st shop now).burstCount ∨
          sl ≤ (bucketSeen st shop now).sustainedCount) ∧
      (∀ resp, (rateLimit iso st shop now sl bl).1 = .error resp →
        resp.status = 429 ∧
        (rateLimit iso st shop now sl bl).2.rateLimitCache (rateLimitKey shop) =
          (st.rateLimitCache (rateLimitKey shop)).map
            (fun b => applyWindowResets b now)) ∧
      (∀ v, (rateLimit iso st shop now sl bl).1 = .ok v →
        (rateLimit iso st shop now sl bl).2.rateLimitCache (rateLimitKey shop) =
          some { bucketSeen st shop now with
                   burstCount := (bucketSeen st shop now).burstCount + 1
                   sustainedCount := (bucketSeen st shop now).sustainedCount + 1 }) := by
  intro iso st shop now sl bl
  cases hst : st.rateLimitCache (rateLimitKey shop) with
  | none =>
    simp only [rateLimit, bucketSeen, hst, Option.getD_none, Option.getD_some,
      Option.isSome_none, Option.isSome_some, Option.map_none',
      Option.map_some', Bool.false_eq_true, if_false, eq_self_iff_true, if_true]
    split_ifs with hb hs hu
    · exact ⟨iff_of_true ⟨_, rfl, rfl⟩ (Or.inl hb),
        fun resp heq => ⟨by injection heq with h; exact h ▸ rfl, hst⟩,
        fun v hv => absurd hv (by simp)⟩
    · exact ⟨iff_of_true ⟨_, rfl, rfl⟩ (Or.inr hs),
        fun resp heq => ⟨by injection heq with h; exact h ▸ rfl, hst⟩,
        fun v hv => absurd hv (by simp)⟩
    · exact ⟨iff_of_false (by rintro ⟨resp, heq, -⟩; simp at heq)
          (fun h => h.elim hb hs),
        fun resp heq => absurd heq (by simp),
        fun v hv => by simp [mapSet]⟩
    · exact ⟨iff_of_false (by rintro ⟨resp, heq, -⟩; simp at heq)
          (fun h => h.elim hb hs),
        fun resp heq => absurd heq (by simp),
        fun v hv => by simp [mapSet]⟩
  | some b =>
    simp only [rateLimit, bucketSeen, hst, Option.getD_none, Option.getD_some,
      Option.isSome_none, Option.isSome_some, Option.map_none',
      Option.map_some', Bool.false_eq_true, if_false, eq_self_iff_true, if_true]
    split_ifs with hb hs hu
    · exact ⟨iff_of_true ⟨_, rfl, rfl⟩ (Or.inl hb),
        fun resp heq => ⟨by injection heq with h; exact h ▸ rfl,
          by simp [mapSet]⟩,
        fun v hv => absurd hv (by simp)⟩
    · exact ⟨iff_of_true ⟨_, rfl, rfl⟩ (Or.inr hs),
        fun resp heq => ⟨by injection heq with h; exact h ▸ rfl,
          by simp [mapSet]⟩,
        fun v hv => absurd hv (by simp)⟩
    · exact ⟨iff_of_false (by rintro ⟨resp, heq, -⟩; simp at heq)
          (fun h => h.elim hb hs),
        fun resp heq => absurd heq (by simp),
        fun v hv => by simp [mapSet]⟩
    · exact ⟨iff_of_false (by rintro ⟨resp, heq, -⟩; simp at heq)
          (fun h => h.elim hb hs),
        fun resp heq => absurd heq (by simp),
        fun v hv => by simp [mapSet]⟩

/-- Witness for C1: at the saturated fixture the call throws, the iff
is inhabited on both sides, and the entry keeps its counters. -/
theorem rateLimit_decision_C1_witness :
    (∃ resp, (rateLimit isoStub burstRejectState "shop" 5000 100 40).1 =
        .error resp ∧ resp.status = 429) ∧
      (rateLimit isoStub burstRejectState "shop" 5000 100 40).2.rateLimitCache
          (rateLimitKey "shop") =
        (burstRejectState.rateLimitCache (rateLimitKey "shop")).map
          (fun b => applyWindowResets b 5000) := by
  have h := rateLimit_decision_C1 isoStub burstRejectState "shop" 5000 100 40
  have herr := h.1.mpr (by decide)
  obtain ⟨resp, heq, h429⟩ := herr
  exact ⟨⟨resp, heq, h429⟩, (h.2.1 resp heq).2⟩

/-- C9 (amended): the two `rateLimit` definitions in the file agree at
the caller interface — same admit/reject decision, equal
`{remaining, reset, burst}` values on admit, a status-429 throw on
reject, and identical bucket-cache updates; they differ only in
logging, in the 429 headers, and in the body text of the burst-path
429. -/
theorem rateLimit_minimal_equiv_C9 :
    ∀ (iso : ℕ → String) (st : RLState) (shop : String) (now sl bl : ℕ),
      ((rateLimit iso st shop now sl bl).1.isOk =
        (rateLimitMin iso st.rateLimitCache shop now sl bl).1.isOk) ∧
      (∀ v, (rateLimit iso st shop now sl bl).1 = .ok v ↔
        (rateLimitMin iso st.rateLimitCache shop now sl bl).1 = .ok v) ∧
      (∀ r r', (rateLimit iso st shop now sl bl).1 = .error r →
        (rateLimitMin iso st.rateLimitCache shop now sl bl).1 = .error r' →
        r.status = 429 ∧ r'.status = 429) ∧
      ((rateLimit iso st shop now sl bl).2.rateLimitCache =
        (rateLimitMin iso st.rateLimitCache shop now sl bl).2) := by
  intro iso st shop now sl bl
  cases hst : st.rateLimitCache (rateLimitKey shop) with
  | none =>
    simp only [rateLimit, rateLimitMin, hst, Option.getD_none,
      Option.isSome_none, Bool.false_eq_true, if_false]
    split_ifs with hb hs hu
    · refine ⟨rfl, fun v => iff_of_false (by simp) (by simp),
        fun r r' hr hr' => ?_, rfl⟩
      injection hr with h
      injection hr' with h'
      exact ⟨h ▸ rfl, h' ▸ rfl⟩
    · refine ⟨rfl, fun v => iff_of_false (by simp) (by simp),
        fun r r' hr hr' => ?_, rfl⟩
      injection hr with h
      injection hr' with h'
      exact ⟨h ▸ rfl, h' ▸ rfl⟩
    · exact ⟨rfl, fun v => Iff.rfl,
        fun r r' hr hr' => absurd hr (by simp), rfl⟩
    · exact ⟨rfl, fun v => Iff.rfl,
        fun r r' hr hr' => absurd hr (by simp), rfl⟩
  | some b =>
    simp only [rateLimit, rateLimitMin, hst, Option.getD_some,
      Option.isSome_some, eq_self_iff_true, if_true]
    split_ifs with hb hs hu
    · refine ⟨rfl, fun v => iff_of_false (by simp) (by simp),
        fun r r' hr hr' => ?_, rfl⟩
      injection hr with h
      injection hr' with h'
      exact ⟨h ▸ rfl, h' ▸ rfl⟩
    · refine ⟨rfl, fun v => iff_of_false (by simp) (by simp),
        fun r r' hr hr' => ?_, rfl⟩
      injection hr with h
      injection hr' with h'
      exact ⟨h ▸ rfl, h' ▸ rfl⟩
    · exact ⟨rfl, fun v => Iff.rfl,
        fun r r' hr hr' => absurd hr (by simp), rfl⟩
    · exact ⟨rfl, fun v => Iff.rfl,
        fun r r' hr hr' => absurd hr (by simp), rfl⟩

/-- Witness for C9 (amended): at the saturated fixture both variants
throw with status 429. -/
theorem rateLimit_minimal_equiv_C9_witness :
    burstRejectRespEnhanced.status = 429 ∧ burstRejectRespMin.status = 429 :=
  (rateLimit_minimal_equiv_C9 isoStub burstRejectState "shop" 5000 100 40).2.2.1
    burstRejectRespEnhanced burstRejectRespMin rfl rfl

/-- Counterexample to C9 as stated: on the burst path the two variants
throw 429s whose bodies differ (`'Too Many Requests (burst limit)'`
versus `'Too Many Requests'`), so they do not differ only in logging
and headers. -/
theorem rateLimit_minimal_equiv_C9_counterexample : ¬ claimC9Statement := by
  intro h
  have h2 := (h isoStub burstRejectState "shop" 5000 100 40).2
    burstRejectRespEnhanced burstRejectRespMin rfl rfl
  have hbody := h2.2
  exact absurd hbody (by decide)

/-- The sleeps inserted by the retry loop from iteration `attempt` on
form an initial run of the doubling sequence
`retryDelayMs attempt, retryDelayMs (attempt+1), …`. -/
theorem retryGo_delays_eq {E : Type} (results : ℕ → Except E Unit) :
    ∀ (fuel attempt : ℕ) (le : Option E),
      ∃ n, (retryGo results fuel attempt le).delays =
        (List.range n).map (fun j => retryDelayMs (attempt + j)) := by
  intro fuel
  induction fuel with
  | zero => intro attempt le; exact ⟨0, by simp [retryGo]⟩
  | succ f ih =>
    intro attempt le
    rcases hres : results attempt with e | u
    · by_cases hf : 0 < f
      · obtain ⟨n, hn⟩ := ih (attempt + 1) (some e)
        refine ⟨n + 1, ?_⟩
        have hd : (retryGo results (f + 1) attempt le).delays =
            retryDelayMs attempt ::
              (retryGo results f (attempt + 1) (some e)).delays := by
          simp [retryGo, hres, hf]
        rw [hd, hn, List.range_succ_eq_map, List.map_cons, List.map_map]
        refine List.cons_eq_cons.mpr ⟨by simp, ?_⟩
        apply List.map_congr_left
        intro a _
        show retryDelayMs (attempt + 1 + a) = retryDelayMs (attempt + (a + 1))
        exact congrArg retryDelayMs (by omega)
      · exact ⟨0, by simp [retryGo, hres, hf]⟩
    · exact ⟨0, by simp [retryGo, hres]⟩

/-- C3 (amended): the retry loop does not use a fixed delay; the sleep
after the `j`-th failed attempt is `2^(j+1) * 1000` ms
(`Math.pow(2, attempt) * 1000`), an exponential backoff that doubles
with the attempt number. -/
theorem handleWebhookWithRetry_delays_C3 :
    ∀ (E : Type) (results : ℕ → Except E Unit) (maxRetries : ℕ),
      ∃ n, (handleWebhookWithRetry results maxRetries).delays =
        (List.range n).map (fun j => retryDelayMs (1 + j)) := by
  intro E results maxRetries
  exact retryGo_delays_eq results maxRetries 1 none

set_option maxRecDepth 4000 in
/-- Counterexample to C3 as stated: with a handler that always fails
and `maxRetries = 3`, the two inserted delays are 2000 ms and 4000 ms,
so no single constant separates consecutive attempts. -/
theorem handleWebhookWithRetry_delays_C3_counterexample : ¬ claimC3Statement := by
  rintro ⟨c, hc⟩
  have h1 := hc Unit alwaysFailHandler 3 2000 (by decide)
  have h2 := hc Unit alwaysFailHandler 3 4000 (by decide)
  omega

/-- The loop invokes the handler on consecutive attempt numbers
starting at `attempt`. -/
theorem retryGo_attempts_consecutive {E : Type} (results : ℕ → Except E Unit) :
    ∀ (fuel attempt : ℕ) (le : Option E),
      (retryGo results fuel attempt le).attemptsMade =
        List.range' attempt (retryGo results fuel attempt le).attemptsMade.length := by
  intro fuel
  induction fuel with
  | zero => intro attempt le; simp [retryGo]
  | succ f ih =>
    intro attempt le
    rcases hres : results attempt with e | u
    · by_cases hf : 0 < f
      · have hd : (retryGo results (f + 1) attempt le).attemptsMade =
            attempt :: (retryGo results f (attempt + 1) (some e)).attemptsMade := by
          simp [retryGo, hres, hf]
        rw [hd, List.length_cons, List.range'_succ]
        exact List.cons_eq_cons.mpr ⟨rfl, ih (attempt + 1) (some e)⟩
      · simp [retryGo, hres, hf, List.range'_succ]
    · simp [retryGo, hres, List.range'_succ]

/-- The loop makes at most `fuel` further handler invocations. -/
theorem retryGo_attempts_length_le {E : Type} (results : ℕ → Except E Unit) :
    ∀ (fuel attempt : ℕ) (le : Option E),
      (retryGo results fuel attempt le).attemptsMade.length ≤ fuel := by
  intro fuel
  induction fuel with
  | zero => intro attempt le; simp [retryGo]
  | succ f ih =>
    intro attempt le
    rcases hres : results attempt with e | u
    · by_cases hf : 0 < f
      · have := ih (attempt + 1) (some e)
        simp only [retryGo, hres, if_pos hf]
        simpa using Nat.succ_le_succ this
      · simp [retryGo, hres, hf]
    · simp [retryGo, hres]

/-- Every invocation the loop makes is preceded only by failing
invocations: once an attempt succeeds no later attempt is invoked. -/
theorem retryGo_no_invoke_after_success {E : Type} (results : ℕ → Except E Unit) :
    ∀ (fuel attempt : ℕ) (le : Option E),
      ∀ i ∈ (retryGo results fuel attempt le).attemptsMade,
        ∀ j, attempt ≤ j → j < i → results j ≠ .ok () := by
  intro fuel
  induction fuel with
  | zero => intro attempt le i hi; simp [retryGo] at hi
  | succ f ih =>
    intro attempt le i hi j hatt hji
    rcases hres : results attempt with e | u
    · by_cases hf : 0 < f
      · have hd : (retryGo results (f + 1) attempt le).attemptsMade =
            attempt :: (retryGo results f (attempt + 1) (some e)).attemptsMade := by
          simp [retryGo, hres, hf]
        rw [hd] at hi
        rcases List.mem_cons.mp hi with rfl | hi'
        · omega
        · rcases Nat.eq_or_lt_of_le hatt with rfl | hlt
          · intro hok; rw [hres] at hok; cases hok
          · exact ih (attempt + 1) (some e) i hi' j hlt hji
      · have hd : (retryGo results (f + 1) attempt le).attemptsMade = [attempt] := by
          simp [retryGo, hres, hf]
        rw [hd] at hi
        rcases List.mem_singleton.mp hi with rfl
        omega
    · have hd : (retryGo results (f + 1) attempt le).attemptsMade = [attempt] := by
        simp [retryGo, hres]
      rw [hd] at hi
      rcases List.mem_singleton.mp hi with rfl
      omega

/-- The loop ends in success exactly when some invocation it made
succeeded. -/
theorem retryGo_ok_iff {E : Type} (results : ℕ → Except E Unit) :
    ∀ (fuel attempt : ℕ) (le : Option E),
      ((retryGo results fuel attempt le).result = .ok () ↔
        ∃ i ∈ (retryGo results fuel attempt le).attemptsMade,
          results i = .ok ()) := by
  intro fuel
  induction fuel with
  | zero => intro attempt le; simp [retryGo]
  | succ f ih =>
    intro attempt le
    rcases hres : results attempt with e | u
    · by_cases hf : 0 < f
      · have hd : retryGo results (f + 1) attempt le =
            ⟨(retryGo results f (attempt + 1) (some e)).result,
              attempt :: (retryGo results f (attempt + 1) (some e)).attemptsMade,
              retryDelayMs attempt ::
                (retryGo results f (attempt + 1) (some e)).delays⟩ := by
          simp [retryGo, hres, hf]
        rw [hd]
        simp only [List.mem_cons]
        constructor
        · intro h
          obtain ⟨i, hi, hoki⟩ := (ih (attempt + 1) (some e)).mp h
          exact ⟨i, Or.inr hi, hoki⟩
        · rintro ⟨i, hi | hi, hoki⟩
          · rw [hi, hres] at hoki; cases hoki
          · exact (ih (attempt + 1) (some e)).mpr ⟨i, hi, hoki⟩
      · have hd : retryGo results (f + 1) attempt le =
            ⟨.error (some e), [attempt], []⟩ := by
          simp [retryGo, hres, hf]
        rw [hd]
        simp only [List.mem_singleton]
        constructor
        · intro h; cases h
        · rintro ⟨i, rfl, hoki⟩; rw [hres] at hoki; cases hoki
    · have hd : retryGo results (f + 1) attempt le = ⟨.ok (), [attempt], []⟩ := by
        simp [retryGo, hres]
      rw [hd]
      exact iff_of_true rfl ⟨attempt, List.mem_singleton.mpr rfl, by rw [hres]⟩

/-- When every remaining attempt fails, the loop rethrows the error of
the last attempt (`attempt + fuel - 1`). -/
theorem retryGo_all_fail {E : Type} (results : ℕ → Except E Unit) :
    ∀ (fuel attempt : ℕ) (le : Option E) (e : E), 0 < fuel →
      (∀ i, attempt ≤ i → i < attempt + fuel → results i ≠ .ok ()) →
      results (attempt + fuel - 1) = .error e →
      (retryGo results fuel attempt le).result = .error (some e) := by
  intro fuel
  induction fuel with
  | zero => intro attempt le e h0; omega
  | succ f ih =>
    intro attempt le e _ hfail hlast
    rcases hres : results attempt with e' | u
    · by_cases hf : 0 < f
      · have hd : (retryGo results (f + 1) attempt le).result =
            (retryGo results f (attempt + 1) (some e')).result := by
          simp [retryGo, hres, hf]
        rw [hd]
        refine ih (attempt + 1) (some e') e hf (fun i h1 h2 => hfail i (by omega) (by omega)) ?_
        have : attempt + 1 + f - 1 = attempt + (f + 1) - 1 := by omega
        rw [this]
        exact hlast
      · have hzero : f = 0 := by omega
        subst hzero
        have hd : (retryGo results (0 + 1) attempt le).result = .error (some e') := by
          simp [retryGo, hres]
        rw [hd]
        have : attempt + (0 + 1) - 1 = attempt := by omega
        rw [this, hres] at hlast
        injection hlast with h
        rw [h]
    · exact absurd hres (by simpa using hfail attempt (by omega) (by omega))

/-- C4: for `maxRetries ≥ 1`, `handleWebhookWithRetry` invokes the
handler at most `maxRetries` times, on consecutive attempts `1, 2, …`;
every invocation follows only failed ones (so it returns as soon as an
invocation succeeds, without invoking the handler again); it succeeds
exactly when some invocation succeeded; and when all `maxRetries`
invocations fail it rethrows the error of the last attempt. -/
theorem handleWebhookWithRetry_C4 :
    ∀ (E : Type) (results : ℕ → Except E Unit) (maxRetries : ℕ),
      1 ≤ maxRetries →
      ((handleWebhookWithRetry results maxRetries).attemptsMade.length ≤ maxRetries ∧
        (handleWebhookWithRetry results maxRetries).attemptsMade =
          List.range' 1 (handleWebhookWithRetry results maxRetries).attemptsMade.length ∧
        (∀ i ∈ (handleWebhookWithRetry results maxRetries).attemptsMade,
          ∀ j, 1 ≤ j → j < i → results j ≠ .ok ()) ∧
        ((handleWebhookWithRetry results maxRetries).result = .ok () ↔
          ∃ i ∈ (handleWebhookWithRetry results maxRetries).attemptsMade,
            results i = .ok ()) ∧
        (∀ e, (∀ i, 1 ≤ i → i ≤ maxRetries → results i ≠ .ok ()) →
          results maxRetries = .error e →
          (handleWebhookWithRetry results maxRetries).result = .error (some e))) := by
  intro E results maxRetries hmr
  refine ⟨retryGo_attempts_length_le results maxRetries 1 none,
    retryGo_attempts_consecutive results maxRetries 1 none,
    retryGo_no_invoke_after_success results maxRetries 1 none,
    retryGo_ok_iff results maxRetries 1 none, ?_⟩
  intro e hfail hlast
  refine retryGo_all_fail results maxRetries 1 none e (by omega)
    (fun i h1 h2 => hfail i h1 (by omega)) ?_
  have : 1 + maxRetries - 1 = maxRetries := by omega
  rw [this]
  exact hlast

/-- Witness for C4 with a handler failing once then succeeding. -/
theorem handleWebhookWithRetry_C4_witness :
    (1 : ℕ) ≤ 3 ∧
      (handleWebhookWithRetry failThenOkHandler 3).attemptsMade.length ≤ 3 := by
  exact ⟨by decide,
    (handleWebhookWithRetry_C4 Unit failThenOkHandler 3 (by decide)).1⟩

/-- Membership in a conditional singleton push. -/
theorem mem_ite_singleton {α : Type} {c : Prop} [Decidable c] {x s : α}
    (h : s ∈ if c then [x] else []) : s = x := by
  split at h
  · simpa using h
  · simp at h

/-- Every card the generator pushes is one of the fourteen literals. -/
theorem mem_scoredInsights {m : DashboardMetrics} {now : ℤ} {s : ScoredInsight}
    (h : s ∈ scoredInsights m now) : s ∈ allInsightCards := by
  unfold scoredInsights at h
  simp only [List.mem_append] at h
  rcases h with ((((((((((((h | h) | h) | h) | h) | h) | h) | h) | h) | h) |
      h) | h) | h) | h
  · rw [mem_ite_singleton h]; decide
  · rw [mem_ite_singleton h]; decide
  · rw [mem_ite_singleton h]; decide
  · rw [mem_ite_singleton h]; decide
  · rw [mem_ite_singleton h]; decide
  · rw [mem_ite_singleton h]; decide
  · -- shipping-low: conditional around a `let` and an inner conditional
    split at h
    · rw [mem_ite_singleton h]; decide
    · simp at h
  · rw [mem_ite_singleton h]; decide
  · rw [mem_ite_singleton h]; decide
  · rw [mem_ite_singleton h]; decide
  · rw [mem_ite_singleton h]; decide
  · rw [mem_ite_singleton h]; decide
  · rw [mem_ite_singleton h]; decide
  · -- ml-improving: conditional under a `match` on `lastMLUpdate`
    rcases hml : m.lastMLUpdate with _ | t <;> rw [hml] at h
    · simp at h
    · rw [mem_ite_singleton h]; decide

/-- Each pushed card carries the fixed score of its kind. -/
theorem score_eq_scoreOf {m : DashboardMetrics} {now : ℤ} {s : ScoredInsight}
    (h : s ∈ scoredInsights m now) : s.score = scoreOf s.id := by
  have hall := mem_scoredInsights h
  fin_cases hall <;> rfl

/-- The descending-score comparator sorts the pushed list. -/
theorem pairwise_mergeSort_score (l : List ScoredInsight) :
    List.Pairwise (fun a b : ScoredInsight => b.score ≤ a.score)
      (l.mergeSort fun a b => b.score ≤ a.score) := by
  have h := @List.sorted_mergeSort ScoredInsight
    (fun a b => decide (b.score ≤ a.score))
    (fun a b c hab hbc => by
      simp only [decide_eq_true_eq] at *
      omega)
    (fun a b => by
      simpa using Nat.le_total b.score a.score)
    l
  simpa using h

/-- C6: insight generation is a flat list of independent conditionals
sorted by a static score: each of the fourteen cards carries a fixed
constant score determined solely by its kind (`scoreOf` of its id), and
the returned list is ordered in non-increasing order of that score. -/
theorem generateInsights_sorted_C6 :
    ∀ (m : DashboardMetrics) (now : ℤ),
      (∀ s ∈ scoredInsights m now, s.score = scoreOf s.id) ∧
      List.Pairwise (fun a b : InsightCardProps => scoreOf b.id ≤ scoreOf a.id)
        (generateInsights m now) := by
  intro m now
  refine ⟨fun s hs => score_eq_scoreOf hs, ?_⟩
  unfold generateInsights
  rw [List.pairwise_map]
  have htake := (pairwise_mergeSort_score (scoredInsights m now)).sublist
    (List.take_sublist 4 _)
  refine List.Pairwise.imp_of_mem ?_ htake
  intro a b ha hb hr
  have ha' : a ∈ scoredInsights m now :=
    (List.mergeSort_perm (scoredInsights m now) _).subset
      (List.take_subset _ _ ha)
  have hb' : b ∈ scoredInsights m now :=
    (List.mergeSort_perm (scoredInsights m now) _).subset
      (List.take_subset _ _ hb)
  show scoreOf b.toInsightCardProps.id ≤ scoreOf a.toInsightCardProps.id
  calc scoreOf b.toInsightCardProps.id
      = b.score := (score_eq_scoreOf hb').symm
    _ ≤ a.score := hr
    _ = scoreOf a.toInsightCardProps.id := score_eq_scoreOf ha'

/-- Witness for C6 at a concrete metrics record. -/
theorem generateInsights_sorted_C6_witness :
    List.Pairwise (fun a b : InsightCardProps => scoreOf b.id ≤ scoreOf a.id)
      (generateInsights demoMetrics 0) :=
  (generateInsights_sorted_C6 demoMetrics 0).2

/-- C8: `generateInsights` returns at most four cards, and each
returned record is a pushed card with its `score` field stripped
(only the `InsightCardProps` fields remain). -/
theorem generateInsights_top4_C8 :
    ∀ (m : DashboardMetrics) (now : ℤ),
      (generateInsights m now).length ≤ 4 ∧
      ∀ c ∈ generateInsights m now,
        ∃ s, s ∈ scoredInsights m now ∧ c = s.toInsightCardProps := by
  intro m now
  constructor
  · unfold generateInsights
    rw [List.length_map]
    exact List.length_take_le 4 _
  · intro c hc
    unfold generateInsights at hc
    rcases List.mem_map.mp hc with ⟨s, hs, rfl⟩
    exact ⟨s, (List.mergeSort_perm (scoredInsights m now) _).subset
      (List.take_subset _ _ hs), rfl⟩

/-- Witness for C8 at a concrete metrics record. -/
theorem generateInsights_top4_C8_witness :
    (generateInsights demoMetrics 0).length ≤ 4 :=
  (generateInsights_top4_C8 demoMetrics 0).1

/-- Component form of the two sequential reset checks. -/
theorem applyWindowResets_eq (b : BurstBucket) (now : ℕ) :
    applyWindowResets b now =
      { burstCount := if b.burstReset ≤ now then 0 else b.burstCount
        burstReset :=
          if b.burstReset ≤ now then now + burstWindow else b.burstReset
        sustainedCount := if b.sustainedReset ≤ now then 0 else b.sustainedCount
        sustainedReset :=
          if b.sustainedReset ≤ now then now + sustainedWindow
          else b.sustainedReset } := by
  unfold applyWindowResets
  split_ifs <;> simp_all

/-- A fresh bucket carries live windows, so the reset checks fix it. -/
theorem applyWindowResets_fresh (now : ℕ) :
    applyWindowResets (freshBucket now) now = freshBucket now := by
  rw [applyWindowResets_eq]
  unfold freshBucket burstWindow sustainedWindow
  split_ifs <;> rfl

/-- Requests admitted before a reset that has expired by time `t` fall
out of the new window `(t, t + w]`. -/
theorem filter_stale_nil (adm : List ℕ) (t w r : ℕ)
    (hbnd : ∀ a ∈ adm, a < r) (hr : r ≤ t) :
    adm.filter (fun a => t + w ≤ a + w) = [] := by
  refine List.filter_eq_nil_iff.mpr ?_
  intro a ha
  have := hbnd a ha
  simp only [decide_eq_true_eq]
  omega

/-- Appending the current call to the admitted list adds one to a
window count exactly when the call lies in the window. -/
theorem filter_append_singleton (p : ℕ → Bool) (adm : List ℕ) (t : ℕ) :
    ((adm ++ [t]).filter p).length =
      (adm.filter p).length + (if p t then 1 else 0) := by
  rw [List.filter_append, List.length_append]
  cases hp : p t <;> simp [hp]

/-- On a call, the shop's cache entry either keeps its reset-adjusted
counters (reject path, when a limit is hit) or gains one on both
counters (admit path). -/
theorem rateLimit_key_cases (iso : ℕ → String) (st : RLState) (shop : String)
    (t sl bl : ℕ) :
    ((rateLimit iso st shop t sl bl).1.isOk = false ∧
      (rateLimit iso st shop t sl bl).2.rateLimitCache (rateLimitKey shop) =
        (st.rateLimitCache (rateLimitKey shop)).map
          (fun b => applyWindowResets b t)) ∨
    ((rateLimit iso st shop t sl bl).1.isOk = true ∧
      (rateLimit iso st shop t sl bl).2.rateLimitCache (rateLimitKey shop) =
        some { bucketSeen st shop t with
                 burstCount := (bucketSeen st shop t).burstCount + 1
                 sustainedCount := (bucketSeen st shop t).sustainedCount + 1 }) := by
  cases hst : st.rateLimitCache (rateLimitKey shop) with
  | none =>
    simp only [rateLimit, bucketSeen, hst, Option.getD_none, Option.isSome_none,
      Bool.false_eq_true, if_false, Option.map_none']
    split_ifs with hb hs hu
    · exact Or.inl ⟨rfl, hst⟩
    · exact Or.inl ⟨rfl, hst⟩
    · exact Or.inr ⟨rfl, by simp [mapSet]⟩
    · exact Or.inr ⟨rfl, by simp [mapSet]⟩
  | some b =>
    simp only [rateLimit, bucketSeen, hst, Option.getD_some, Option.isSome_some,
      eq_self_iff_true, if_true, Option.map_some']
    split_ifs with hb hs hu
    · exact Or.inl ⟨rfl, by simp [mapSet]⟩
    · exact Or.inl ⟨rfl, by simp [mapSet]⟩
    · exact Or.inr ⟨rfl, by simp [mapSet]⟩
    · exact Or.inr ⟨rfl, by simp [mapSet]⟩

/-- One `rateLimit` call preserves the fixed-window invariant, moving
the time bound from the previous call time `T` to the call time `t`. -/
theorem rateLimit_preserves_inv (iso : ℕ → String) (st : RLState)
    (shop : String) (sl bl : ℕ) (adm : List ℕ) (T t : ℕ)
    (hinv : RLInv st shop adm T) (hle : T ≤ t) :
    RLInv (rateLimit iso st shop t sl bl).2 shop
      (if (rateLimit iso st shop t sl bl).1.isOk then adm ++ [t] else adm)
      t := by
  obtain ⟨hnone, hsome⟩ := hinv
  rcases rateLimit_key_cases iso st shop t sl bl with ⟨hok, hcache⟩ | ⟨hok, hcache⟩
  · -- reject path: no admission, counters only reset-adjusted
    rw [hok]
    simp only [Bool.false_eq_true, if_false]
    constructor
    · intro h0
      rw [hcache] at h0
      exact hnone (Option.map_eq_none'.mp h0)
    · intro bb hbb
      rw [hcache] at hbb
      obtain ⟨b, hb, rfl⟩ := Option.map_eq_some'.mp hbb
      obtain ⟨hbc, hsc, hbnd, hbr, hsr⟩ := hsome b hb
      rw [applyWindowResets_eq]
      by_cases h1 : b.burstReset ≤ t <;> by_cases h2 : b.sustainedReset ≤ t <;>
        simp only [h1, h2, if_true, if_false] <;>
        refine ⟨?_, ?_, ?_, ?_, ?_⟩ <;> dsimp only
      · rw [filter_stale_nil adm t burstWindow b.burstReset
          (fun a ha => (hbnd a ha).1) h1]
        rfl
      · rw [filter_stale_nil adm t sustainedWindow b.sustainedReset
          (fun a ha => (hbnd a ha).2) h2]
        rfl
      · intro a ha; have := hbnd a ha; omega
      · omega
      · omega
      · rw [filter_stale_nil adm t burstWindow b.burstReset
          (fun a ha => (hbnd a ha).1) h1]
        rfl
      · exact hsc
      · intro a ha; have := hbnd a ha; omega
      · omega
      · omega
      · exact hbc
      · rw [filter_stale_nil adm t sustainedWindow b.sustainedReset
          (fun a ha => (hbnd a ha).2) h2]
        rfl
      · intro a ha; have := hbnd a ha; omega
      · omega
      · omega
      · exact hbc
      · exact hsc
      · intro a ha; have := hbnd a ha; omega
      · omega
      · omega
  · -- admit path: both counters gain one, time t is admitted
    rw [hok]
    simp only [if_true]
    constructor
    · intro h0
      rw [hcache] at h0
      exact absurd h0 (by simp)
    · intro bb hbb
      rw [hcache] at hbb
      obtain rfl := (Option.some.inj hbb).symm
      rcases hst : st.rateLimitCache (rateLimitKey shop) with _ | b
      · -- no prior entry: no prior admissions, fresh windows
        have hadm := hnone hst
        subst hadm
        have hbs : bucketSeen st shop t = freshBucket t := by
          unfold bucketSeen
          rw [hst, Option.getD_none, applyWindowResets_fresh]
        rw [hbs]
        refine ⟨?_, ?_, ?_, ?_, ?_⟩ <;> dsimp only [freshBucket]
        · simp [List.filter]
        · simp [List.filter]
        · intro a ha
          have : a = t := by simpa using ha
          subst this
          unfold burstWindow sustainedWindow
          omega
        · omega
        · omega
      · -- prior entry: invariant facts for the stored bucket
        obtain ⟨hbc, hsc, hbnd, hbr, hsr⟩ := hsome b hst
        have hbs : bucketSeen st shop t = applyWindowResets b t := by
          unfold bucketSeen
          rw [hst, Option.getD_some]
        rw [hbs, applyWindowResets_eq]
        by_cases h1 : b.burstReset ≤ t <;> by_cases h2 : b.sustainedReset ≤ t <;>
          simp only [h1, h2, if_true, if_false] <;>
          refine ⟨?_, ?_, ?_, ?_, ?_⟩ <;> dsimp only
        · rw [filter_append_singleton,
            filter_stale_nil adm t burstWindow b.burstReset
              (fun a ha => (hbnd a ha).1) h1]
          simp
        · rw [filter_append_singleton,
            filter_stale_nil adm t sustainedWindow b.sustainedReset
              (fun a ha => (hbnd a ha).2) h2]
          simp
        · intro a ha
          rcases List.mem_append.mp ha with ha' | ha'
          · have := hbnd a ha'
            unfold burstWindow sustainedWindow at *
            omega
          · have : a = t := by simpa using ha'
            subst this
            unfold burstWindow sustainedWindow
            omega
        · omega
        · omega
        · rw [filter_append_singleton,
            filter_stale_nil adm t burstWindow b.burstReset
              (fun a ha => (hbnd a ha).1) h1]
          have hpt : (decide (b.sustainedReset ≤ t + sustainedWindow)) = true := by
            simp only [decide_eq_true_eq]
            omega
          simp [hpt]
        · rw [filter_append_singleton]
          have hpt : (decide (b.sustainedReset ≤ t + sustainedWindow)) = true := by
            simp only [decide_eq_true_eq]
            omega
          rw [hpt]
          simp [hsc]
        · intro a ha
          rcases List.mem_append.mp ha with ha' | ha'
          · have := hbnd a ha'
            unfold burstWindow sustainedWindow at *
            omega
          · have : a = t := by simpa using ha'
            subst this
            unfold burstWindow sustainedWindow at *
            omega
        · omega
        · omega
        · rw [filter_append_singleton]
          have hpt : (decide (b.burstReset ≤ t + burstWindow)) = true := by
            simp only [decide_eq_true_eq]
            omega
          rw [hpt]
          simp [hbc]
        · rw [filter_append_singleton,
            filter_stale_nil adm t sustainedWindow b.sustainedReset
              (fun a ha => (hbnd a ha).2) h2]
          have hpt : (decide (b.burstReset ≤ t + burstWindow)) = true := by
            simp only [decide_eq_true_eq]
            omega
          simp
        · intro a ha
          rcases List.mem_append.mp ha with ha' | ha'
          · have := hbnd a ha'
            unfold burstWindow sustainedWindow at *
            omega
          · have : a = t := by simpa using ha'
            subst this
            unfold burstWindow sustainedWindow at *
            omega
        · omega
        · omega
        · rw [filter_append_singleton]
          have hpt : (decide (b.burstReset ≤ t + burstWindow)) = true := by
            simp only [decide_eq_true_eq]
            omega
          rw [hpt]
          simp [hbc]
        · rw [filter_append_singleton]
          have hpt : (decide (b.sustainedReset ≤ t + sustainedWindow)) = true := by
            simp only [decide_eq_true_eq]
            omega
          rw [hpt]
          simp [hsc]
        · intro a ha
          rcases List.mem_append.mp ha with ha' | ha'
          · have := hbnd a ha'
            omega
          · have : a = t := by simpa using ha'
            subst this
            omega
        · omega
        · omega

/-- The invariant propagates along any time-ordered call sequence. -/
theorem runCallsAux_inv :
    ∀ (ts : List ℕ) (iso : ℕ → String) (shop : String) (sl bl : ℕ)
      (st : RLState) (adm : List ℕ) (T : ℕ),
      RLInv st shop adm T → List.Chain (· ≤ ·) T ts →
      RLInv (runCallsAux iso shop sl bl st adm ts).1 shop
        (runCallsAux iso shop sl bl st adm ts).2 (ts.getLastD T) := by
  intro ts
  induction ts with
  | nil =>
    intro iso shop sl bl st adm T hinv _
    simpa [runCallsAux] using hinv
  | cons t ts ih =>
    intro iso shop sl bl st adm T hinv hch
    rw [List.chain_cons] at hch
    obtain ⟨hTt, hch2⟩ := hch
    rw [List.getLastD_cons]
    simp only [runCallsAux]
    exact ih iso shop sl bl _ _ t
      (rateLimit_preserves_inv iso st shop sl bl adm T t hinv hTt) hch2

/-- C2 (amended): the two counters are fixed-window, not sliding-window:
over any time-ordered sequence of calls for one shop, each cached
counter equals the number of admitted requests inside that counter's
current window `(reset - window, reset]`.  An admitted request stops
counting when its window expires — possibly well before it is a window
length old — rather than when it becomes older than the window. -/
theorem rateLimit_fixedWindow_C2 :
    ∀ (iso : ℕ → String) (shop : String) (sl bl : ℕ) (ts : List ℕ),
      ts.Chain' (· ≤ ·) →
      ∀ bb, (runCalls iso shop sl bl ts).1.rateLimitCache (rateLimitKey shop) =
          some bb →
        bb.burstCount = ((runCalls iso shop sl bl ts).2.filter
            (fun a => bb.burstReset ≤ a + burstWindow)).length ∧
        bb.sustainedCount = ((runCalls iso shop sl bl ts).2.filter
            (fun a => bb.sustainedReset ≤ a + sustainedWindow)).length := by
  intro iso shop sl bl ts hch bb hbb
  have h0 : RLInv emptyRLState shop [] (ts.headD 0) := by
    constructor
    · intro _; rfl
    · intro bb2 h2; exact absurd h2 (by simp [emptyRLState])
  have hchain : List.Chain (· ≤ ·) (ts.headD 0) ts := by
    cases ts with
    | nil => exact List.Chain.nil
    | cons t ts2 => exact List.chain_cons.mpr ⟨le_refl t, hch⟩
  have hinv := runCallsAux_inv ts iso shop sl bl emptyRLState [] (ts.headD 0)
    h0 hchain
  obtain ⟨h1, h2, -⟩ := hinv.2 bb hbb
  exact ⟨h1, h2⟩

set_option maxRecDepth 10000 in
/-- Counterexample to C2 as stated: admit requests at 0 ms and 9000 ms,
then call at 11000 ms.  The burst window that started at 0 ms expired at
10000 ms, so the reset-adjusted burst counter is 0, yet the request
admitted at 9000 ms is only 2000 ms old — well inside a trailing
10-second window, whose count is 1. -/
theorem rateLimit_fixedWindow_C2_counterexample : ¬ claimC2Statement := by
  intro h
  obtain ⟨hb, -⟩ := h isoStub "shop" 100 40 [0, 9000] 11000
    (by simp [List.chain_cons]) (by decide)
  exact absurd hb (by decide)

set_option maxRecDepth 10000 in
/-- Witness for C2 (amended) on the trace `[0, 9000]`: the cached
bucket counts both admitted requests, which both lie in the windows
`(0, 10000]` and `(0, 60000]`. -/
theorem rateLimit_fixedWindow_C2_witness :
    List.Chain' (· ≤ ·) [0, 9000] ∧
      (2 : ℕ) = ((runCalls isoStub "shop" 100 40 [0, 9000]).2.filter
          (fun a => (10000 : ℕ) ≤ a + burstWindow)).length ∧
      (2 : ℕ) = ((runCalls isoStub "shop" 100 40 [0, 9000]).2.filter
          (fun a => (60000 : ℕ) ≤ a + sustainedWindow)).length := by
  have hch : List.Chain' (· ≤ ·) [0, 9000] := by simp [List.chain_cons]
  have h := rateLimit_fixedWindow_C2 isoStub "shop" 100 40 [0, 9000] hch
    ⟨2, 10000, 2, 60000⟩ (by decide)
  exact ⟨hch, h.1, h.2⟩

end ShopifyApp
